import Mathlib

/-!
Verification of the task-management data-model layer: the Task, User and Tag
model classes, their declarative validation rules, and the relationship and
store semantics the schema declarations rely on.  Dates are embedded as
integer timestamps; the current clock (new Date() in the source) is always an
explicit argument.
-/

namespace TaskApp

/-- Task record as declared in the Task model: surrogate id, title,
description, status string, due date as an integer timestamp, priority
string, and the two foreign keys. -/
structure Task where
  id : Nat
  title : String
  description : String
  status : String
  dueDate : Int
  priority : String
  userId : Nat
  projectId : Nat
deriving Repr, DecidableEq

/-- Translation of Task.isOverdue: true when the due date is strictly before
the current time and the status is not the completed literal, false
otherwise. -/
def Task.isOverdue (t : Task) (now : Int) : Bool :=
  if t.dueDate < now && t.status != "completed" then true else false

/-- Progress percentage for a status string: the switch statement of
Task.getProgress, a chain of literal comparisons ending in a default branch. -/
def progressOfStatus (s : String) : String :=
  if s = "completed" then "100%"
  else if s = "in_progress" then "50%"
  else if s = "cancelled" then "0%"
  else "0%"

/-- Translation of Task.getProgress. -/
def Task.getProgress (t : Task) : String :=
  progressOfStatus t.status

/-- User record as declared in the User model. -/
structure User where
  id : Nat
  username : String
  email : String
  password : String
  firstName : String
  lastName : String
deriving Repr, DecidableEq

/-- Translation of User.getFullName. -/
def User.getFullName (u : User) : String :=
  u.firstName ++ " " ++ u.lastName

/-- Quotient step of getTaskCompletionRate.  The source divides the completed
count by the total count with no guard; a zero total is a division by zero
(NaN in the source runtime), embedded as the none branch of a fallible
division. -/
def completionPercent (completed total : Nat) : Option ℚ :=
  if total = 0 then none else some ((completed : ℚ) / (total : ℚ) * 100)

/-- Translation of User.getTaskCompletionRate: filter the user's tasks for
the completed status, divide by the unguarded total count, and render the
rounded percentage. -/
def User.getTaskCompletionRate (_u : User) (tasks : List Task) : Option String :=
  match completionPercent
      (tasks.filter (fun t => t.status == "completed")).length tasks.length with
  | none => none
  | some q => some (toString (round q) ++ "%")

/-! ### Field validation rules

Each rule below is translated from a `validate` entry of a model
declaration. -/

/-- Length rule: string length between lo and hi inclusive (the len rule). -/
def lenOk (lo hi : Nat) (s : String) : Bool :=
  lo ≤ s.length && s.length ≤ hi

/-- Alphanumeric rule on the username (isAlphanumeric): nonempty and only
ASCII letters and digits.  Stated over the character list of the string. -/
def alnumOk (s : String) : Bool :=
  !s.data.isEmpty && s.data.all Char.isAlphanum

/-- Splitting a character list at every occurrence of a separator. -/
def splitOnChar (c : Char) : List Char → List (List Char)
  | [] => [[]]
  | x :: xs =>
    if x = c then [] :: splitOnChar c xs
    else
      match splitOnChar c xs with
      | y :: ys => (x :: y) :: ys
      | [] => [[x]]

/-- Modelled from the spec: the email-format check.  The isEmail rule defers
to an external validator library that is not part of the repository; the spec
asks only for "a valid email format", modelled as one at-sign separating a
nonempty local part from a domain that contains a dot. -/
def emailFormatOk (s : String) : Bool :=
  match splitOnChar '@' s.data with
  | [lp, dom] => !lp.isEmpty && !dom.isEmpty && dom.contains '.'
  | _ => false

/-- Lowercase rule (isLowercase): the value equals its own lowercasing,
stated over the character list of the string. -/
def lowercaseOk (s : String) : Bool :=
  s.data.map Char.toLower == s.data

/-- Password strength rule translated from the isStrongPassword regex: at
least one uppercase letter, one digit, one character outside the word class
(or an underscore), and length 8 to 100. -/
def strongPasswordOk (s : String) : Bool :=
  s.data.any Char.isUpper && s.data.any Char.isDigit &&
    s.data.any (fun c => !c.isAlphanum || c = '_') && lenOk 8 100 s

/-- Name rule for firstName and lastName, translated from the
letters-only regex. -/
def alphaNameOk (s : String) : Bool :=
  !s.data.isEmpty && s.data.all Char.isAlpha

/-! ### The Field Validator as one function (spec section 4.1)

The rule variants carry everything a rule looks at except the clock; the
isFutureDate rule of the Task schema reads the current clock, which the
embedding passes explicitly as the now argument. -/

/-- Scalar value passed to the Field Validator. -/
inductive FieldValue where
  | str (s : String)
  | date (t : Int)
deriving Repr, DecidableEq

/-- Declarative rule variants of the Field Validator: length bounds, enum
membership, the lowercase check, and the custom isFutureDate predicate of the
Task schema. -/
inductive Rule where
  | len (lo hi : Nat)
  | isIn (allowed : List String)
  | isLowercase
  | isFutureDate
deriving Repr, DecidableEq

/-- Field Validator evaluation.  The isFutureDate rule compares the value
with the current clock (new Date() in the source), passed here as the now
argument; no other rule looks at it. -/
def validate (rule : Rule) (v : FieldValue) (now : Int) : Bool :=
  match rule, v with
  | .len lo hi, .str s => lenOk lo hi s
  | .isIn allowed, .str s => allowed.contains s
  | .isLowercase, .str s => lowercaseOk s
  | .isFutureDate, .date t => now < t
  | _, _ => false

/-! ### Create pipeline errors (spec section 7 taxonomy, the part used here) -/

/-- Failure values a create operation can return. -/
inductive CreateErr where
  | validationFailed (field : String) (rule : String)
  | duplicateValue (field : String)
  | danglingReference (field : String)
deriving Repr, DecidableEq

/-- One rule check contributing to a collected failure report: nothing when
the rule holds, the (field, rule) pair when it fails. -/
def ruleCheck (ok : Bool) (f r : String) : List (String × String) :=
  if ok then [] else [(f, r)]

/-- Modelled from the spec: validateRecord over the User schema — every field
is validated in declaration order against the rules the source declares
(username len and isAlphanumeric, email isEmail and isLowercase, password len
and isStrongPassword, firstName and lastName len and letters-only pattern),
and every violation is collected into one report. -/
structure UserInput where
  username : String
  email : String
  password : String
  firstName : String
  lastName : String
deriving Repr, DecidableEq

/-- Collected validation report for a candidate User, all fields in
declaration order. -/
def userFieldErrors (inp : UserInput) : List (String × String) :=
  ruleCheck (lenOk 3 30 inp.username) "username" "len" ++
  ruleCheck (alnumOk inp.username) "username" "isAlphanumeric" ++
  ruleCheck (emailFormatOk inp.email) "email" "isEmail" ++
  ruleCheck (lowercaseOk inp.email) "email" "isLowercase" ++
  ruleCheck (lenOk 8 100 inp.password) "password" "len" ++
  ruleCheck (strongPasswordOk inp.password) "password" "isStrongPassword" ++
  ruleCheck (lenOk 2 50 inp.firstName) "firstName" "len" ++
  ruleCheck (alphaNameOk inp.firstName) "firstName" "is" ++
  ruleCheck (lenOk 2 50 inp.lastName) "lastName" "len" ++
  ruleCheck (alphaNameOk inp.lastName) "lastName" "is"

/-- Modelled from the spec: the Entity Store create path for a User — field
validation collects all violations first; the unique username and email
indexes are then checked against existing records exactly as stored.  The
source declares no normalization hook (its hooks object is empty), so values
are compared as given. -/
def createUser (store : List User) (nextId : Nat) (inp : UserInput) :
    Except (List CreateErr) User :=
  let errs := (userFieldErrors inp).map (fun e => CreateErr.validationFailed e.1 e.2)
  if errs ≠ [] then .error errs
  else if store.any (fun u => u.username == inp.username) then
    .error [.duplicateValue "username"]
  else if store.any (fun u => u.email == inp.email) then
    .error [.duplicateValue "email"]
  else .ok ⟨nextId, inp.username, inp.email, inp.password, inp.firstName, inp.lastName⟩

/-- Candidate fields for creating a Task; status and priority may be omitted
and then take the defaults the schema declares. -/
structure TaskInput where
  title : String
  description : Option String
  status : Option String
  dueDate : Int
  priority : Option String
  userId : Nat
  projectId : Nat
deriving Repr, DecidableEq

/-- Status literals of the Task schema isIn rule. -/
def taskStatuses : List String := ["pending", "in_progress", "completed", "cancelled"]

/-- Priority literals of the Task schema isIn rule. -/
def taskPriorities : List String := ["low", "medium", "high"]

/-- Modelled from the spec: validateRecord over the Task schema with the
rules the source declares — title len 3 to 100, status isIn after the pending
default, the custom isFutureDate rule on dueDate (failing when the value is
not strictly after the current time), priority isIn after the medium
default. -/
def taskFieldErrors (now : Int) (inp : TaskInput) : List (String × String) :=
  ruleCheck (lenOk 3 100 inp.title) "title" "len" ++
  ruleCheck (taskStatuses.contains (inp.status.getD "pending")) "status" "isIn" ++
  ruleCheck (now < inp.dueDate) "dueDate" "isFutureDate" ++
  ruleCheck (taskPriorities.contains (inp.priority.getD "medium")) "priority" "isIn"

/-- Modelled from the spec: the Entity Store create path for a Task — collect
all field violations, then check the two foreign keys against the existing
User and Project ids, then build the record with the declared defaults
applied. -/
def createTask (now : Int) (userIds projectIds : List Nat) (nextId : Nat)
    (inp : TaskInput) : Except (List CreateErr) Task :=
  let errs := (taskFieldErrors now inp).map (fun e => CreateErr.validationFailed e.1 e.2)
  if errs ≠ [] then .error errs
  else if inp.userId ∉ userIds then .error [.danglingReference "userId"]
  else if inp.projectId ∉ projectIds then .error [.danglingReference "projectId"]
  else .ok ⟨nextId, inp.title, inp.description.getD "", inp.status.getD "pending",
            inp.dueDate, inp.priority.getD "medium", inp.userId, inp.projectId⟩

/-! ### Many-to-many join table (spec section 4.3) -/

/-- Modelled from the spec: the TaskTags join table as a list of
(taskId, tagId) pairs with the unique pair constraint — inserting a pair that
is already present is a no-op rather than an error.  The through-table itself
is declared by the two belongsToMany registrations. -/
def addTaskTag (join : List (Nat × Nat)) (taskId tagId : Nat) : List (Nat × Nat) :=
  if (taskId, tagId) ∈ join then join else join ++ [(taskId, tagId)]

/-! ### Relationship Registry and cascade deletion (spec section 4.3) -/

/-- Delete policy of a relationship. -/
inductive DeletePolicy where
  | cascade
  | restrict
  | setNull
deriving Repr, DecidableEq

/-- A registered relationship: parent kind, child kind, the foreign key field
on the child, and the on-delete policy.  The repository registers two hasMany
relationships with the CASCADE policy (User to Task and Project to Task). -/
structure Relationship where
  source : String
  target : String
  fkField : String
  onDelete : DeletePolicy
deriving Repr, DecidableEq

/-- A stored record as the cascade algorithm sees it: entity kind, id, and
its foreign key assignments (field name to referenced parent id). -/
structure StoredRec where
  kind : String
  rid : Nat
  fks : List (String × Nat)
deriving Repr, DecidableEq

/-- Key identifying a record: entity kind and id. -/
def recKey (r : StoredRec) : String × Nat := (r.kind, r.rid)

/-- Children of a record through cascade relationships: for every
relationship with this kind as parent and the Cascade policy, the stored
records of the child kind whose foreign key field holds this id. -/
def cascadeChildren (rels : List Relationship) (store : List StoredRec)
    (k : String) (i : Nat) : List (String × Nat) :=
  ((rels.filter (fun rel => rel.source == k && rel.onDelete == DeletePolicy.cascade)).map
    (fun rel =>
      (store.filter (fun r => r.kind == rel.target && (rel.fkField, i) ∈ r.fks)).map recKey)).flatten

/-- Result of the cascade deletion procedure.  The fuelOut constructor is the
recursion bound of the embedding; the theorems below show a sufficient bound
is never reached. -/
inductive CascadeResult where
  | ok (deleted : List (String × Nat))
  | cascadeCycle (path : List (String × Nat))
  | fuelOut
deriving Repr, DecidableEq

/-- One depth level of the depth-first cascade: visit the pending sibling
nodes in order.  A node already on the current ancestor path is a
relationship cycle and yields the CascadeCycle error; otherwise its cascade
children are deleted through the next-level visitor and the node itself is
recorded as deleted. -/
def visitLevel (rels : List Relationship) (store : List StoredRec)
    (next : List (String × Nat) → List (String × Nat) → CascadeResult)
    (path : List (String × Nat)) : List (String × Nat) → CascadeResult
  | [] => .ok []
  | n :: rest =>
    if n ∈ path then .cascadeCycle (n :: path)
    else
      match next (n :: path) (cascadeChildren rels store n.1 n.2) with
      | .ok ds =>
        match visitLevel rels store next path rest with
        | .ok ds2 => .ok (n :: (ds ++ ds2))
        | e => e
      | e => e

/-- Modelled from the spec: depth-first cascade deletion with cycle detection,
bounded by a recursion depth that the store size makes sufficient. -/
def cascadeVisit (rels : List Relationship) (store : List StoredRec) :
    Nat → List (String × Nat) → List (String × Nat) → CascadeResult
  | 0 => fun _ ns => if ns.isEmpty then .ok [] else .fuelOut
  | f + 1 => visitLevel rels store (cascadeVisit rels store f)

/-- Modelled from the spec: cascadeOnDelete for one root record — run the
depth-first visitor from the root with an empty ancestor path and depth bound
two past the store size. -/
def cascadeDelete (rels : List Relationship) (store : List StoredRec)
    (root : String × Nat) : CascadeResult :=
  cascadeVisit rels store (store.length + 2) [] [root]

/-- One cascade step: c is a cascade child of p in the store. -/
def CascadeStep (rels : List Relationship) (store : List StoredRec)
    (p c : String × Nat) : Prop :=
  c ∈ cascadeChildren rels store p.1 p.2

/-- Transitive descendant through cascade relationships. -/
def CascadeDesc (rels : List Relationship) (store : List StoredRec) :
    (String × Nat) → (String × Nat) → Prop :=
  Relation.TransGen (CascadeStep rels store)

/-- Count of store keys not yet on the ancestor path: the measure that makes
the depth bound sufficient. -/
def unexplored (store : List StoredRec) (path : List (String × Nat)) : Nat :=
  ((store.map recKey).toFinset \ path.toFinset).card

/-! ### Entity Store surrogate id assignment (spec section 4.4) -/

/-- Per-kind auto-increment counters of the store, with the first id 1. -/
def getCounter : List (String × Nat) → String → Nat
  | [], _ => 1
  | (k2, n) :: cs, k => if k2 = k then n else getCounter cs k

/-- Update of one per-kind counter. -/
def setCounter : List (String × Nat) → String → Nat → List (String × Nat)
  | [], k, n => [(k, n)]
  | (k2, v) :: cs, k, n => if k2 = k then (k, n) :: cs else (k2, v) :: setCounter cs k n

/-- Modelled from the spec: the per-entity-kind state of the Entity Store
that id assignment touches — the auto-increment counters and the live record
keys. -/
structure StoreState where
  counters : List (String × Nat)
  live : List (String × Nat)
deriving Repr, DecidableEq

/-- Operations of the store lifetime the id-assignment claims range over. -/
inductive StoreOp where
  | create (kind : String)
  | delete (kind : String) (rid : Nat)
deriving Repr, DecidableEq

/-- Modelled from the spec: one store operation — create assigns the next
counter value of its kind and bumps the counter; delete removes the record
but leaves every counter untouched. -/
def stepOp (s : StoreState) : StoreOp → StoreState × Option (String × Nat)
  | .create k =>
    let i := getCounter s.counters k
    (⟨setCounter s.counters k (i + 1), (k, i) :: s.live⟩, some (k, i))
  | .delete k i =>
    (⟨s.counters, s.live.filter (fun r => r ≠ (k, i))⟩, none)

/-- The (kind, id) pairs assigned by a sequence of operations, in order. -/
def runTrace (s : StoreState) : List StoreOp → List (String × Nat)
  | [] => []
  | op :: ops =>
    match stepOp s op with
    | (s2, some e) => e :: runTrace s2 ops
    | (s2, none) => runTrace s2 ops

/-- The store state before any operation. -/
def initStore : StoreState := ⟨[], []⟩

/-- All surrogate ids a store lifetime assigns, from the initial state. -/
def assignedIds (ops : List StoreOp) : List (String × Nat) :=
  runTrace initStore ops

/-! ### Concrete fixtures used by the theorems -/

/-- Relationship registrations forming a cascade cycle between two kinds. -/
def cycleRels : List Relationship :=
  [⟨"A", "B", "bfk", .cascade⟩, ⟨"B", "A", "afk", .cascade⟩]

/-- Two records referencing each other through the cyclic relationships. -/
def cycleStore : List StoredRec :=
  [⟨"A", 1, [("afk", 2)]⟩, ⟨"B", 2, [("bfk", 1)]⟩]

/-- The repository's User-to-Task cascade relationship alone. -/
def demoRels : List Relationship := [⟨"User", "Task", "userId", .cascade⟩]

/-- One task referencing user 1. -/
def demoStore : List StoredRec := [⟨"Task", 5, [("userId", 1)]⟩]

/-- Existing store with one user whose email is all lowercase. -/
def existingUsers : List User :=
  [⟨1, "alice", "alice@example.com", "Passw0rd!x", "Alice", "Smith"⟩]

/-- Candidate user whose email differs from the stored one only in letter
case; every other field satisfies its rules. -/
def mixedCaseInput : UserInput :=
  ⟨"alice2", "Alice@example.com", "Passw0rd!x", "Alice", "Smith"⟩

/-! ### Theorems -/

/-- C1: Task.isOverdue returns true exactly when the task's due date is
strictly before the current date and its status is not completed; in
particular a completed task with a past due date is not overdue, and an
in-progress task with a past due date is overdue. -/
theorem isOverdue_spec : ∀ (t : Task) (now : Int),
    (t.isOverdue now = true ↔ (t.dueDate < now ∧ t.status ≠ "completed")) ∧
    (t.status = "completed" → t.isOverdue now = false) ∧
    (t.status = "in_progress" → t.dueDate < now → t.isOverdue now = true) := by
  intro t now
  refine ⟨?_, ?_, ?_⟩
  · simp [Task.isOverdue]
  · intro h; simp [Task.isOverdue, h]
  · intro h1 h2; simp [Task.isOverdue, h1, h2]

/-- C10: Task.getProgress is total and returns exactly one of the three
percentage strings, determined solely by the status: completed maps to 100
percent, in_progress to 50 percent, and pending, cancelled and every other
value to 0 percent. -/
theorem getProgress_spec : ∀ t : Task,
    (t.getProgress = "100%" ∨ t.getProgress = "50%" ∨ t.getProgress = "0%") ∧
    (t.getProgress = "100%" ↔ t.status = "completed") ∧
    (t.getProgress = "50%" ↔ t.status = "in_progress") ∧
    (t.status = "pending" → t.getProgress = "0%") ∧
    (t.status = "cancelled" → t.getProgress = "0%") ∧
    (t.status ≠ "completed" → t.status ≠ "in_progress" → t.getProgress = "0%") := by
  intro t
  unfold Task.getProgress progressOfStatus
  split_ifs with h1 h2 h3 <;> simp_all

/-- C4: getTaskCompletionRate divides by the task count with no guard, so on
an empty task list the division hits a zero denominator and no percentage is
produced, while any nonempty task list does produce one. -/
theorem completionRate_zero_division :
    (∀ u : User, u.getTaskCompletionRate [] = none) ∧
    (∀ (u : User) (tasks : List Task), tasks ≠ [] →
      (u.getTaskCompletionRate tasks).isSome = true) := by
  constructor
  · intro u; rfl
  · intro u tasks h
    have hl : tasks.length ≠ 0 := by simpa using h
    simp [User.getTaskCompletionRate, completionPercent, hl]

/-- C8 counterexample: the isFutureDate rule evaluated twice on the same
value and rule returns different results when the clock has moved past the
value, so validate is not independent of its clock input. -/
theorem validate_clock_dependent_cex :
    validate Rule.isFutureDate (FieldValue.date 5) 3 ≠
      validate Rule.isFutureDate (FieldValue.date 5) 5 := by decide

/-- C8 amended: validate is deterministic in its explicit inputs, and every
rule except isFutureDate ignores the clock, so two evaluations of such a rule
on the same value agree whatever the two clock readings are. -/
theorem validate_pure_amended (r : Rule) (v : FieldValue) (now now2 : Int)
    (h : r ≠ Rule.isFutureDate) : validate r v now = validate r v now2 := by
  cases r <;> cases v <;> first | rfl | exact absurd rfl h

/-- C8 witness: the length rule evaluated at two different clock readings. -/
theorem validate_pure_amended_witness :
    validate (Rule.len 3 30) (FieldValue.str "abc") 0 =
      validate (Rule.len 3 30) (FieldValue.str "abc") 99 :=
  validate_pure_amended (Rule.len 3 30) (FieldValue.str "abc") 0 99 (by decide)

/-- C5: adding a Task to Tag association is idempotent — the added pair is
present afterwards, adding it again is a no-op, and a pair not previously in
the join table ends with exactly one entry after being added twice. -/
theorem addTaskTag_idempotent : ∀ (join : List (Nat × Nat)) (taskId tagId : Nat),
    ((taskId, tagId) ∈ addTaskTag join taskId tagId ∧
      addTaskTag (addTaskTag join taskId tagId) taskId tagId =
        addTaskTag join taskId tagId ∧
      ((taskId, tagId) ∉ join →
        (addTaskTag (addTaskTag join taskId tagId) taskId tagId).count
          (taskId, tagId) = 1)) ∧
    addTaskTag (addTaskTag [] 1 2) 1 2 = [(1, 2)] := by
  intro j t g
  refine ⟨⟨?_, ?_, ?_⟩, by decide⟩
  · by_cases h : (t, g) ∈ j <;> simp [addTaskTag, h]
  · by_cases h : (t, g) ∈ j <;> simp [addTaskTag, h]
  · intro h
    have hmem : (t, g) ∈ j ++ [(t, g)] := by simp
    have hj : addTaskTag j t g = j ++ [(t, g)] := by rw [addTaskTag, if_neg h]
    rw [hj, addTaskTag, if_pos hmem]
    simp [List.count_append, List.count_eq_zero.mpr h]

/-- C7: the failing input of the missing email normalization — with a stored
all-lowercase email, creating a second user whose email differs only in
letter case is rejected by the isLowercase validator (no lowercase
normalization runs, the hooks object of the source being empty), so the
promised DuplicateValue(email) failure is never reached. -/
theorem createUser_mixed_case_email :
    createUser existingUsers 2 mixedCaseInput =
        Except.error [CreateErr.validationFailed "email" "isLowercase"] ∧
    ∀ f, createUser existingUsers 2 mixedCaseInput ≠
        Except.error [CreateErr.duplicateValue f] := by
  have h1 : createUser existingUsers 2 mixedCaseInput =
      Except.error [CreateErr.validationFailed "email" "isLowercase"] := by rfl
  refine ⟨h1, ?_⟩
  intro f h
  rw [h1] at h
  simp at h

/-- C2: creating a Task whose due date is not strictly after the current time
fails validation with the isFutureDate error, while a Task with a future due
date, valid foreign keys and otherwise valid fields succeeds with the status
defaulted to pending; the two closing conjuncts evaluate the pipeline on the
yesterday and tomorrow inputs of the spec example. -/
theorem createTask_spec :
    (∀ (now : Int) (userIds projectIds : List Nat) (nid : Nat) (inp : TaskInput),
      (inp.dueDate ≤ now →
        ∃ errs, createTask now userIds projectIds nid inp = Except.error errs ∧
          CreateErr.validationFailed "dueDate" "isFutureDate" ∈ errs) ∧
      (now < inp.dueDate → lenOk 3 100 inp.title = true → inp.status = none →
        taskPriorities.contains (inp.priority.getD "medium") = true →
        inp.userId ∈ userIds → inp.projectId ∈ projectIds →
        ∃ t, createTask now userIds projectIds nid inp = Except.ok t ∧
          t.status = "pending" ∧ t.id = nid)) ∧
    createTask 100 [1] [1] 7 ⟨"Write report", none, none, 50, none, 1, 1⟩ =
      Except.error [CreateErr.validationFailed "dueDate" "isFutureDate"] ∧
    createTask 100 [1] [1] 7 ⟨"Write report", none, none, 200, none, 1, 1⟩ =
      Except.ok ⟨7, "Write report", "", "pending", 200, "medium", 1, 1⟩ := by
  refine ⟨?_, by rfl, by rfl⟩
  intro now userIds projectIds nid inp
  constructor
  · intro h
    have hlt : ¬ (now < inp.dueDate) := by omega
    have hmem : ("dueDate", "isFutureDate") ∈ taskFieldErrors now inp := by
      simp [taskFieldErrors, ruleCheck, hlt]
    have hmem2 : CreateErr.validationFailed "dueDate" "isFutureDate" ∈
        (taskFieldErrors now inp).map (fun e => CreateErr.validationFailed e.1 e.2) :=
      List.mem_map_of_mem _ hmem
    have hne : (taskFieldErrors now inp).map (fun e => CreateErr.validationFailed e.1 e.2) ≠ [] :=
      List.ne_nil_of_mem hmem2
    refine ⟨_, ?_, hmem2⟩
    simp [createTask, hne]
  · intro h1 h2 h3 h4 h5 h6
    have hfe : taskFieldErrors now inp = [] := by
      have h4m : inp.priority.getD "medium" ∈ taskPriorities := by
        simpa [List.contains] using h4
      simp [taskFieldErrors, ruleCheck, h1, h2, h3, h4m, taskStatuses]
    refine ⟨⟨nid, inp.title, inp.description.getD "", "pending", inp.dueDate,
      inp.priority.getD "medium", inp.userId, inp.projectId⟩, ?_, rfl, rfl⟩
    simp [createTask, hfe, h5, h6, h3]

/-- Every cascade child is a key of the store. -/
theorem mem_cascadeChildren_keys {rels : List Relationship} {store : List StoredRec}
    {k : String} {i : Nat} {c : String × Nat}
    (h : c ∈ cascadeChildren rels store k i) : c ∈ store.map recKey := by
  simp only [cascadeChildren, List.mem_flatten, List.mem_map] at h
  obtain ⟨l, ⟨rel, _, rfl⟩, hc⟩ := h
  obtain ⟨r, hr, rfl⟩ := List.mem_map.mp hc
  exact List.mem_map_of_mem recKey (List.mem_of_mem_filter hr)

/-- Growing the ancestor path never grows the unexplored count. -/
theorem unexplored_cons_le (store : List StoredRec) (path : List (String × Nat))
    (n : String × Nat) : unexplored store (n :: path) ≤ unexplored store path := by
  apply Finset.card_le_card
  apply Finset.sdiff_subset_sdiff (le_refl _)
  rw [List.toFinset_cons]
  exact Finset.subset_insert _ _

/-- Putting a fresh store key on the ancestor path lowers the unexplored
count by exactly one. -/
theorem unexplored_cons_mem (store : List StoredRec) (path : List (String × Nat))
    (n : String × Nat) (hn : n ∈ store.map recKey) (hp : n ∉ path) :
    unexplored store (n :: path) + 1 = unexplored store path := by
  unfold unexplored
  have hmem : n ∈ (store.map recKey).toFinset \ path.toFinset := by
    simp [List.mem_toFinset, hn, hp]
  rw [List.toFinset_cons, Finset.sdiff_insert, Finset.card_erase_of_mem hmem]
  have hpos : 0 < ((store.map recKey).toFinset \ path.toFinset).card :=
    Finset.card_pos.mpr ⟨n, hmem⟩
  omega

/-- The unexplored count of the empty path is at most the store size. -/
theorem unexplored_nil_le (store : List StoredRec) :
    unexplored store [] ≤ store.length := by
  unfold unexplored
  simp only [List.toFinset_nil, Finset.sdiff_empty]
  calc (store.map recKey).toFinset.card ≤ (store.map recKey).length :=
        List.toFinset_card_le _
    _ = store.length := List.length_map _ _

/-- With depth bound past the unexplored count, the cascade visitor never
exhausts its fuel: the depth-first recursion terminates on every input. -/
theorem cascadeVisit_ne_fuelOut (rels : List Relationship) (store : List StoredRec) :
    ∀ (fuel : Nat) (path ns : List (String × Nat)),
      unexplored store path + 1 ≤ fuel →
      (∀ n ∈ ns, n ∈ store.map recKey ∨ unexplored store path + 2 ≤ fuel) →
      cascadeVisit rels store fuel path ns ≠ CascadeResult.fuelOut := by
  intro fuel
  induction fuel with
  | zero => intro path ns h1 _; omega
  | succ f IH =>
    intro path ns
    induction ns with
    | nil => intro _ _; simp [cascadeVisit, visitLevel]
    | cons n rest IHns =>
      intro h1 h2
      show visitLevel rels store (cascadeVisit rels store f) path (n :: rest) ≠ _
      rw [visitLevel]
      by_cases hn : n ∈ path
      · simp [hn]
      · rw [if_neg hn]
        have hchild : cascadeVisit rels store f (n :: path)
            (cascadeChildren rels store n.1 n.2) ≠ CascadeResult.fuelOut := by
          apply IH
          · rcases h2 n (List.mem_cons_self n rest) with hkey | hf
            · have := unexplored_cons_mem store path n hkey hn
              omega
            · have := unexplored_cons_le store path n
              omega
          · intro c hc
            exact Or.inl (mem_cascadeChildren_keys hc)
        have hsib : visitLevel rels store (cascadeVisit rels store f) path rest ≠
            CascadeResult.fuelOut := by
          apply IHns h1
          intro m hm
          exact h2 m (List.mem_cons_of_mem n hm)
        rcases hc : cascadeVisit rels store f (n :: path)
            (cascadeChildren rels store n.1 n.2) with ds | p | _
        · rcases hs : visitLevel rels store (cascadeVisit rels store f) path rest
            with ds2 | p2 | _
          · simp
          · simp
          · exact absurd hs hsib
        · simp
        · exact absurd hc hchild

/-- When the cascade visitor succeeds, every pending node ends in the deleted
list and the deleted list is closed under cascade children. -/
theorem cascadeVisit_closed (rels : List Relationship) (store : List StoredRec) :
    ∀ (fuel : Nat) (path ns ds : List (String × Nat)),
      cascadeVisit rels store fuel path ns = CascadeResult.ok ds →
      (∀ n ∈ ns, n ∈ ds) ∧
      (∀ x ∈ ds, ∀ c ∈ cascadeChildren rels store x.1 x.2, c ∈ ds) := by
  intro fuel
  induction fuel with
  | zero =>
    intro path ns ds h
    cases ns with
    | nil =>
      simp [cascadeVisit] at h
      subst h
      simp
    | cons a l => simp [cascadeVisit] at h
  | succ f IH =>
    intro path ns
    induction ns with
    | nil =>
      intro ds h
      have h2 : CascadeResult.ok [] = CascadeResult.ok ds := h
      simp at h2
      subst h2
      simp
    | cons n rest IHns =>
      intro ds h
      have h2 : visitLevel rels store (cascadeVisit rels store f) path (n :: rest) =
          CascadeResult.ok ds := h
      rw [visitLevel] at h2
      by_cases hn : n ∈ path
      · rw [if_pos hn] at h2
        simp at h2
      · rw [if_neg hn] at h2
        rcases hc : cascadeVisit rels store f (n :: path)
            (cascadeChildren rels store n.1 n.2) with d1 | p | _ <;> rw [hc] at h2
        · rcases hs : visitLevel rels store (cascadeVisit rels store f) path rest
              with d2 | p2 | _ <;> rw [hs] at h2
          · simp only [CascadeResult.ok.injEq] at h2
            subst h2
            obtain ⟨A1, A2⟩ := IH (n :: path) _ d1 hc
            obtain ⟨B1, B2⟩ := IHns d2 hs
            constructor
            · intro m hm
              rcases List.mem_cons.mp hm with rfl | hm2
              · exact List.mem_cons_self _ _
              · exact List.mem_cons_of_mem _ (List.mem_append.mpr (Or.inr (B1 m hm2)))
            · intro x hx c hc2
              rcases List.mem_cons.mp hx with rfl | hx2
              · exact List.mem_cons_of_mem _ (List.mem_append.mpr (Or.inl (A1 c hc2)))
              · rcases List.mem_append.mp hx2 with hx3 | hx4
                · exact List.mem_cons_of_mem _
                    (List.mem_append.mpr (Or.inl (A2 x hx3 c hc2)))
                · exact List.mem_cons_of_mem _
                    (List.mem_append.mpr (Or.inr (B2 x hx4 c hc2)))
          · simp at h2
          · simp at h2
        · simp at h2
        · simp at h2

/-- C3: cascade deletion terminates on every input (the depth bound of the
procedure is never exhausted), a successful run deletes every transitive
cascade descendant of the root, and on the concrete cyclic relationship pair
the run reports CascadeCycle instead of diverging. -/
theorem cascadeDelete_spec :
    (∀ (rels : List Relationship) (store : List StoredRec) (root : String × Nat),
      cascadeDelete rels store root ≠ CascadeResult.fuelOut ∧
      ∀ ds, cascadeDelete rels store root = CascadeResult.ok ds →
        ∀ d, CascadeDesc rels store root d → d ∈ ds) ∧
    cascadeDelete cycleRels cycleStore ("A", 1) =
      CascadeResult.cascadeCycle [("A", 1), ("B", 2), ("A", 1)] := by
  refine ⟨?_, by decide⟩
  intro rels store root
  constructor
  · apply cascadeVisit_ne_fuelOut
    · have := unexplored_nil_le store
      omega
    · intro n _
      right
      have := unexplored_nil_le store
      omega
  · intro ds h d hd
    obtain ⟨A1, A2⟩ := cascadeVisit_closed rels store _ _ _ _ h
    have hroot : root ∈ ds := A1 root (List.mem_cons_self _ _)
    have hd2 : Relation.TransGen (CascadeStep rels store) root d := hd
    clear hd
    induction hd2 with
    | single hstep => exact A2 root hroot _ hstep
    | tail _ hstep ihq => exact A2 _ ihq _ hstep

/-- C3 witness: on the repository's User-to-Task cascade relationship the
delete of user 1 succeeds and removes task 5, a cascade descendant. -/
theorem cascadeDelete_spec_witness :
    ("Task", 5) ∈ [(("User" : String), 1), (("Task" : String), 5)] :=
  (cascadeDelete_spec.1 demoRels demoStore ("User", 1)).2
    [("User", 1), ("Task", 5)] (by decide)
    ("Task", 5) (Relation.TransGen.single (by
      show ("Task", 5) ∈ cascadeChildren demoRels demoStore "User" 1
      decide))

/-- Reading a counter after setting one: the set key reads the new value,
every other key is untouched. -/
theorem getCounter_setCounter (cs : List (String × Nat)) (k k2 : String) (n : Nat) :
    getCounter (setCounter cs k n) k2 = if k = k2 then n else getCounter cs k2 := by
  induction cs with
  | nil => simp [setCounter, getCounter]
  | cons a cs IH =>
    obtain ⟨a1, a2⟩ := a
    by_cases h : a1 = k
    · subst h
      by_cases h2 : a1 = k2 <;> simp [setCounter, getCounter, h2]
    · by_cases h2 : a1 = k2
      · subst h2
        have hk : ¬ k = a1 := fun hk => h hk.symm
        simp [setCounter, getCounter, h, hk]
      · simp [setCounter, getCounter, h, h2, IH]

/-- Store-lifetime invariant: the ids a run assigns are strictly increasing
per kind, and each is at least the counter value of its kind in the starting
state. -/
theorem runTrace_inv :
    ∀ (ops : List StoreOp) (s : StoreState),
      List.Pairwise (fun p q : String × Nat => p.1 = q.1 → p.2 < q.2) (runTrace s ops) ∧
      ∀ e ∈ runTrace s ops, getCounter s.counters e.1 ≤ e.2 := by
  intro ops
  induction ops with
  | nil => intro s; simp [runTrace]
  | cons op ops IH =>
    intro s
    cases op with
    | create k =>
      have hred : runTrace s (StoreOp.create k :: ops) =
          (k, getCounter s.counters k) ::
            runTrace ⟨setCounter s.counters k (getCounter s.counters k + 1),
              (k, getCounter s.counters k) :: s.live⟩ ops := rfl
      rw [hred]
      obtain ⟨hp, hlb⟩ := IH ⟨setCounter s.counters k (getCounter s.counters k + 1),
        (k, getCounter s.counters k) :: s.live⟩
      refine ⟨List.Pairwise.cons ?_ hp, ?_⟩
      · intro e he heq
        have h1 := hlb e he
        rw [getCounter_setCounter] at h1
        rw [if_pos heq] at h1
        omega
      · intro e he
        rcases List.mem_cons.mp he with rfl | he2
        · simp
        · have h1 := hlb e he2
          rw [getCounter_setCounter] at h1
          by_cases hk : k = e.1
          · rw [if_pos hk] at h1
            rw [← hk]
            omega
          · rw [if_neg hk] at h1
            exact h1
    | delete k i =>
      have hred : runTrace s (StoreOp.delete k i :: ops) =
          runTrace ⟨s.counters, s.live.filter (fun r => r ≠ (k, i))⟩ ops := rfl
      rw [hred]
      exact IH _

/-- C9: across any store lifetime, the surrogate ids assigned within one
entity kind are strictly increasing in assignment order, and no id is ever
assigned twice within a kind — deletes never reset the counters, so ids are
not reused after a delete. -/
theorem assignedIds_monotone :
    ∀ ops : List StoreOp,
      List.Pairwise (fun p q : String × Nat => p.1 = q.1 → p.2 < q.2)
        (assignedIds ops) ∧
      List.Pairwise (fun p q : String × Nat => p.1 = q.1 → p.2 ≠ q.2)
        (assignedIds ops) := by
  intro ops
  have h := (runTrace_inv ops initStore).1
  exact ⟨h, h.imp fun hpq heq => Nat.ne_of_lt (hpq heq)⟩

/-- Membership in one collected rule check. -/
theorem mem_ruleCheck {e : String × String} {ok : Bool} {f r : String} :
    e ∈ ruleCheck ok f r ↔ (ok = false ∧ e = (f, r)) := by
  cases ok <;> simp [ruleCheck]

/-- Field names contributed by one collected rule check. -/
theorem map_fst_ruleCheck (ok : Bool) (f r : String) :
    (ruleCheck ok f r).map Prod.fst = if ok then [] else [f] := by
  cases ok <;> simp [ruleCheck]

/-- C6: the User record validator checks every field and collects every
violation — each possible (field, rule) failure appears in the report exactly
when its rule fails on the candidate, independently of the other fields, and
the report lists fields in declaration order. -/
theorem userValidate_collects_all : ∀ inp : UserInput,
    ((("username", "len") ∈ userFieldErrors inp) ↔ lenOk 3 30 inp.username = false) ∧
    ((("username", "isAlphanumeric") ∈ userFieldErrors inp) ↔ alnumOk inp.username = false) ∧
    ((("email", "isEmail") ∈ userFieldErrors inp) ↔ emailFormatOk inp.email = false) ∧
    ((("email", "isLowercase") ∈ userFieldErrors inp) ↔ lowercaseOk inp.email = false) ∧
    ((("password", "len") ∈ userFieldErrors inp) ↔ lenOk 8 100 inp.password = false) ∧
    ((("password", "isStrongPassword") ∈ userFieldErrors inp) ↔
      strongPasswordOk inp.password = false) ∧
    ((("firstName", "len") ∈ userFieldErrors inp) ↔ lenOk 2 50 inp.firstName = false) ∧
    ((("firstName", "is") ∈ userFieldErrors inp) ↔ alphaNameOk inp.firstName = false) ∧
    ((("lastName", "len") ∈ userFieldErrors inp) ↔ lenOk 2 50 inp.lastName = false) ∧
    ((("lastName", "is") ∈ userFieldErrors inp) ↔ alphaNameOk inp.lastName = false) ∧
    ((userFieldErrors inp).map Prod.fst).Sublist
      ["username", "username", "email", "email", "password", "password",
        "firstName", "firstName", "lastName", "lastName"] := by
  intro inp
  have horder : ((userFieldErrors inp).map Prod.fst).Sublist
      ["username", "username", "email", "email", "password", "password",
        "firstName", "firstName", "lastName", "lastName"] := by
    have step : ∀ (ok : Bool) (f r : String), ((ruleCheck ok f r).map Prod.fst).Sublist [f] := by
      intro ok f r
      cases ok <;> simp [ruleCheck]
    simp only [userFieldErrors, List.map_append]
    exact (((((((((step _ _ _).append (step _ _ _)).append (step _ _ _)).append
      (step _ _ _)).append (step _ _ _)).append (step _ _ _)).append
      (step _ _ _)).append (step _ _ _)).append (step _ _ _)).append (step _ _ _)
  refine ⟨?_, ?_, ?_, ?_, ?_, ?_, ?_, ?_, ?_, ?_, horder⟩ <;>
    simp [userFieldErrors, mem_ruleCheck]

end TaskApp
